import Mathlib

/-!
Verification of the `DataDict` data container (plottr, `plottr/data/datadict.py`)
through a shallow embedding in Lean.

A `DataDict` is a Python `dict` mapping field names to dicts which may hold the
keys `axes` (list of field names), `unit` (string) and `values` (list of
scalars).  We model it as an ordered association list of `Field`s; a Python
dict key that may be absent is an `Option`.  Scalar values are modelled as
`Int` (the claims under study do not involve float-specific behaviour; the
not-a-number gap markers produced by the reshape collaborator are modelled by
`Option` in the grid structures below).  A Python method that can raise maps
to `Except Err`; in-place mutation of `self` maps to returning the updated
store.
-/

namespace Plottr

/-- One field entry: the dict stored under a field name.  `none` means the
corresponding dict key is absent. -/
structure Field where
  axes : Option (List String)
  unit : Option String
  values : Option (List Int)
deriving Repr, DecidableEq

/-- The store: insertion-ordered mapping from field name to `Field`
(`DataDict` is a `dict` subclass). -/
abbrev Store := List (String × Field)

def keys (s : Store) : List String := s.map Prod.fst

/-- `name in self` on the Python dict. -/
def hasKey (s : Store) (n : String) : Bool := (keys s).contains n

/-- `self[name]`, as an `Option` (first binding wins; dict keys are unique). -/
def lookupF (s : Store) (n : String) : Option Field :=
  (s.find? (fun p => p.1 == n)).map Prod.snd

/-- `v.get('axes', [])` / `v['axes']` after default-filling. -/
def axesOf (f : Field) : List String := f.axes.getD []

/-- `v['unit']` after default-filling. -/
def unitOf (f : Field) : String := f.unit.getD ""

/-- `v['values']` after default-filling. -/
def valuesOf (f : Field) : List Int := f.values.getD []

/-- The default-filling performed by `validate`: absent `axes` becomes `[]`,
absent `unit` becomes `''`, absent `values` becomes `[]`. -/
def fill (f : Field) : Field :=
  ⟨some (axesOf f), some (unitOf f), some (valuesOf f)⟩

/-- Error taxonomy.  The Python code raises `ValueError` (and `KeyError` for a
missing dict key); the constructors record which code path raised, matching
the spec's error taxonomy. -/
inductive Err where
  | structural (lines : List String)
  | lookupError (msg : String)
  | keyError (k : String)
  | compat (msg : String)
  | shapeConflict (msg : String)
  | valueError (msg : String)
deriving Repr, DecidableEq

/-- The violation message for an unknown axis
(`" * '{n}' has axis '{na}', but no data with name '{na}' registered."`). -/
def axisLine (n na : String) : String :=
  " * \x27" ++ n ++ "\x27 has axis \x27" ++ na ++ "\x27, but no data with name \x27" ++ na ++ "\x27 registered."

/-- The violation message for a length mismatch
(`" * '{n}' has length {l}, but have found {nv} in '{src}'"`). -/
def lengthLine (n : String) (l nv : Nat) (src : String) : String :=
  " * \x27" ++ n ++ "\x27 has length " ++ toString l ++ ", but have found " ++ toString nv ++ " in \x27" ++ src ++ "\x27"

/-- The unknown-axis messages contributed by one field: one line per axis name
not registered in the store.  When the `axes` key is absent no check is made
(the code only loops over `v['axes']` when the key is present). -/
def axisMsgs (s : Store) (n : String) (f : Field) : List String :=
  match f.axes with
  | none => []
  | some axs => axs.filterMap (fun na => if hasKey s na then none else some (axisLine n na))

/-- The loop body of `validate`: walks the items, accumulating violation
message lines and filling defaults; `ref` is the `(nvals, nvalsrc)` pair once
the first field has been seen.  Key membership is checked against the full
store `s` (mutation does not change the key set). -/
def validateAux (s : Store) : List (String × Field) → Option (Nat × String) → Store × List String
  | [], _ => ([], [])
  | (n, v) :: rest, ref =>
    let aMsgs := axisMsgs s n v
    let len := (valuesOf v).length
    match ref with
    | none =>
        let p := validateAux s rest (some (len, n))
        ((n, fill v) :: p.1, aMsgs ++ p.2)
    | some (nv, src) =>
        let lMsgs := if len = nv then [] else [lengthLine n len nv src]
        let p := validateAux s rest (some (nv, src))
        ((n, fill v) :: p.1, aMsgs ++ lMsgs ++ p.2)

/-- `validate`: returns the mutated (default-filled) store together with the
accumulated violation lines; the Python method raises `ValueError` with those
lines exactly when the list is non-empty, and returns `True` otherwise. -/
def validate (s : Store) : Store × List String := validateAux s s none

/-- Spec-level description of the unknown-axis violations: pairs
`(field, axisName)` where the axis name is not a key of the store. -/
def unknownAxisRefs (s : Store) : List (String × String) :=
  s.flatMap (fun p => (axesOf p.2).filterMap
    (fun na => if hasKey s na then none else some (p.1, na)))

/-- Spec-level description of the length-mismatch violations: fields after the
first whose `values` length differs from the first field's. -/
def lengthOffenders (s : Store) : List (String × Nat) :=
  match s with
  | [] => []
  | (_, f0) :: rest =>
      rest.filterMap (fun p =>
        if (valuesOf p.2).length = (valuesOf f0).length then none
        else some (p.1, (valuesOf p.2).length))

/-- The reference length and its source field (the first field). -/
def refLen (s : Store) : Nat × String :=
  match s with
  | [] => (0, "")
  | (n, f) :: _ => ((valuesOf f).length, n)

theorem validateAux_fst (s : Store) (l : List (String × Field)) (ref : Option (Nat × String)) :
    (validateAux s l ref).1 = l.map (fun p => (p.1, fill p.2)) := by
  induction l generalizing ref with
  | nil => cases ref <;> rfl
  | cons hd tl ih =>
      obtain ⟨n, v⟩ := hd
      cases ref with
      | none => simpa [validateAux] using ih _
      | some r => obtain ⟨nv, src⟩ := r; simpa [validateAux] using ih _

theorem validate_fst (s : Store) :
    (validate s).1 = s.map (fun p => (p.1, fill p.2)) :=
  validateAux_fst s s none

/-- The message lines produced by the loop once the reference length is set. -/
def msgsOf (s : Store) (l : List (String × Field)) (nv : Nat) (src : String) : List String :=
  l.flatMap (fun p => axisMsgs s p.1 p.2 ++
    (if (valuesOf p.2).length = nv then [] else [lengthLine p.1 (valuesOf p.2).length nv src]))

theorem validateAux_snd_some (s : Store) (l : List (String × Field)) (nv : Nat) (src : String) :
    (validateAux s l (some (nv, src))).2 = msgsOf s l nv src := by
  induction l with
  | nil => rfl
  | cons hd tl ih =>
      obtain ⟨n, v⟩ := hd
      simp [validateAux, msgsOf] at ih ⊢
      by_cases h : (valuesOf v).length = nv <;> simp [h, ih]

theorem validate_snd (s : Store) :
    (validate s).2 = match s with
      | [] => []
      | (n, v) :: rest => axisMsgs s n v ++ msgsOf s rest (valuesOf v).length n := by
  cases s with
  | nil => rfl
  | cons hd tl =>
      obtain ⟨n, v⟩ := hd
      show (validateAux _ _ _).2 = _
      simp [validateAux, validateAux_snd_some]

/-- The unknown-axis pairs contributed by one field. -/
def unknownPairsOf (s : Store) (n : String) (f : Field) : List (String × String) :=
  (axesOf f).filterMap (fun na => if hasKey s na then none else some (n, na))

theorem unknownAxisRefs_eq (s : Store) :
    unknownAxisRefs s = s.flatMap (fun p => unknownPairsOf s p.1 p.2) := rfl

theorem axisMsgs_eq (s : Store) (n : String) (f : Field) :
    axisMsgs s n f = (unknownPairsOf s n f).map (fun q => axisLine q.1 q.2) := by
  cases haxes : f.axes with
  | none => simp [axisMsgs, unknownPairsOf, axesOf, haxes]
  | some axs =>
      simp only [axisMsgs, unknownPairsOf, axesOf, haxes, Option.getD_some]
      clear haxes
      induction axs with
      | nil => rfl
      | cons a t ih =>
          by_cases h : hasKey s a <;> simp [List.filterMap_cons, h, ih]

theorem validate_snd_cons (n : String) (v : Field) (rest : List (String × Field)) :
    (validate ((n, v) :: rest)).2 =
      axisMsgs ((n, v) :: rest) n v ++ msgsOf ((n, v) :: rest) rest (valuesOf v).length n := by
  show (validateAux _ _ _).2 = _
  simp [validateAux, validateAux_snd_some]

theorem msgsOf_eq_nil_iff (s : Store) (l : List (String × Field)) (nv : Nat) (src : String) :
    msgsOf s l nv src = [] ↔
      ∀ p ∈ l, unknownPairsOf s p.1 p.2 = [] ∧ (valuesOf p.2).length = nv := by
  unfold msgsOf
  rw [List.flatMap_eq_nil_iff]
  refine forall_congr' (fun p => forall_congr' (fun hp => ?_))
  rw [List.append_eq_nil, axisMsgs_eq, List.map_eq_nil_iff]
  by_cases h : (valuesOf p.2).length = nv <;> simp [h]

theorem lengthOffenders_cons (n : String) (v : Field) (rest : List (String × Field)) :
    lengthOffenders ((n, v) :: rest) = [] ↔
      ∀ p ∈ rest, (valuesOf p.2).length = (valuesOf v).length := by
  unfold lengthOffenders
  rw [List.filterMap_eq_nil_iff]
  refine forall_congr' (fun p => forall_congr' (fun hp => ?_))
  by_cases h : (valuesOf p.2).length = (valuesOf v).length <;> simp [h]

theorem validate_msgs_nil_iff (s : Store) :
    (validate s).2 = [] ↔ unknownAxisRefs s = [] ∧ lengthOffenders s = [] := by
  cases s with
  | nil => simp [validate, validateAux, unknownAxisRefs, lengthOffenders]
  | cons hd rest =>
      obtain ⟨n, v⟩ := hd
      rw [validate_snd_cons, List.append_eq_nil, msgsOf_eq_nil_iff, lengthOffenders_cons,
        unknownAxisRefs_eq, List.flatMap_eq_nil_iff, axisMsgs_eq, List.map_eq_nil_iff]
      simp only [List.forall_mem_cons]
      constructor
      · rintro ⟨h1, h2⟩
        exact ⟨⟨h1, fun p hp => (h2 p hp).1⟩, fun p hp => (h2 p hp).2⟩
      · rintro ⟨⟨h1, h2⟩, h3⟩
        exact ⟨h1, fun p hp => ⟨h2 p hp, h3 p hp⟩⟩

theorem mem_validate_axisLine (s : Store) :
    ∀ p ∈ unknownAxisRefs s, axisLine p.1 p.2 ∈ (validate s).2 := by
  intro p hp
  rw [unknownAxisRefs_eq, List.mem_flatMap] at hp
  obtain ⟨q, hq, hpq⟩ := hp
  have hline : axisLine p.1 p.2 ∈ axisMsgs s q.1 q.2 := by
    rw [axisMsgs_eq]
    exact List.mem_map_of_mem _ hpq
  cases s with
  | nil => cases hq
  | cons hd rest =>
      obtain ⟨n, v⟩ := hd
      rw [validate_snd_cons]
      rcases List.mem_cons.mp hq with h | h
      · subst h
        exact List.mem_append_left _ hline
      · refine List.mem_append_right _ ?_
        unfold msgsOf
        rw [List.mem_flatMap]
        exact ⟨q, h, List.mem_append_left _ hline⟩

theorem mem_validate_lengthLine (s : Store) :
    ∀ q ∈ lengthOffenders s, lengthLine q.1 q.2 (refLen s).1 (refLen s).2 ∈ (validate s).2 := by
  intro q hq
  cases s with
  | nil => cases hq
  | cons hd rest =>
      obtain ⟨n, v⟩ := hd
      unfold lengthOffenders at hq
      rw [List.mem_filterMap] at hq
      obtain ⟨p, hp, hf⟩ := hq
      by_cases h : (valuesOf p.2).length = (valuesOf v).length
      · simp [h] at hf
      · simp only [h, if_false] at hf
        have hq := Option.some.inj hf
        subst hq
        rw [validate_snd_cons]
        refine List.mem_append_right _ ?_
        unfold msgsOf
        rw [List.mem_flatMap]
        refine ⟨p, hp, List.mem_append_right _ ?_⟩
        simp [h, refLen]

/-- The example store from the spec: `amplitude` over axes `freq`, `power`. -/
def exampleStore : Store :=
  [("amplitude", ⟨some ["freq", "power"], some "V", some [1, 2, 3, 4]⟩),
   ("freq", ⟨some [], some "Hz", some [1, 1, 2, 2]⟩),
   ("power", ⟨some [], some "dBm", some [0, 1, 0, 1]⟩)]

/-- A store with one unknown-axis violation and one length-mismatch violation. -/
def badStore : Store :=
  [("a", ⟨some ["q"], none, some [1]⟩),
   ("b", ⟨none, none, some [1, 2]⟩)]

/-- C4: `validate` raises exactly when some field's `axes` references an
unregistered name or some field's `values` length differs from the first
field's (the reference length); the raised message contains a line for every
one of the violations, not only the first; with no violations the message
list is empty and `validate` returns true. -/
theorem validate_structural_completeness (s : Store) :
    ((validate s).2 = [] ↔ unknownAxisRefs s = [] ∧ lengthOffenders s = []) ∧
    (∀ p ∈ unknownAxisRefs s, axisLine p.1 p.2 ∈ (validate s).2) ∧
    (∀ q ∈ lengthOffenders s, lengthLine q.1 q.2 (refLen s).1 (refLen s).2 ∈ (validate s).2) :=
  ⟨validate_msgs_nil_iff s, mem_validate_axisLine s, mem_validate_lengthLine s⟩

theorem validate_structural_completeness_witness :
    ("a", "q") ∈ unknownAxisRefs badStore ∧ ("b", 2) ∈ lengthOffenders badStore ∧
    axisLine "a" "q" ∈ (validate badStore).2 ∧
    lengthLine "b" 2 (refLen badStore).1 (refLen badStore).2 ∈ (validate badStore).2 :=
  ⟨by decide, by decide,
   (validate_structural_completeness badStore).2.1 ("a", "q") (by decide),
   (validate_structural_completeness badStore).2.2 ("b", 2) (by decide)⟩

theorem fill_fill (f : Field) : fill (fill f) = fill f := rfl

theorem keys_validate_fst (s : Store) : keys ((validate s).1) = keys s := by
  rw [keys, validate_fst, List.map_map]
  rfl

theorem hasKey_validate_fst (s : Store) (n : String) :
    hasKey ((validate s).1) n = hasKey s n := by
  unfold hasKey
  rw [keys_validate_fst]

theorem hasKey_mapfill (s : Store) (n : String) :
    hasKey (s.map (fun p => (p.1, fill p.2))) n = hasKey s n := by
  unfold hasKey keys
  rw [List.map_map]
  rfl

theorem unknownPairsOf_mapfill (s : Store) (n : String) (f : Field) :
    unknownPairsOf (s.map (fun p => (p.1, fill p.2))) n f = unknownPairsOf s n f := by
  unfold unknownPairsOf
  congr 1
  funext na
  rw [hasKey_mapfill]

theorem unknownAxisRefs_fill (s : Store) :
    unknownAxisRefs ((validate s).1) = unknownAxisRefs s := by
  rw [unknownAxisRefs_eq, unknownAxisRefs_eq, validate_fst, List.flatMap_map]
  congr 1
  funext p
  rw [unknownPairsOf_mapfill]
  rfl

theorem lengthOffenders_fill (s : Store) :
    lengthOffenders ((validate s).1) = lengthOffenders s := by
  rw [validate_fst]
  cases s with
  | nil => rfl
  | cons hd tl =>
      unfold lengthOffenders
      simp only [List.map_cons]
      rw [List.filterMap_map]
      rfl

/-- C7: validating a store that already validated performs no further
mutation (the default-filled store is a fixed point) and again reports no
violations. -/
theorem validate_idempotent (s : Store) (h : (validate s).2 = []) :
    validate ((validate s).1) = ((validate s).1, []) := by
  have h2 : (validate ((validate s).1)).2 = [] := by
    rw [validate_msgs_nil_iff] at h ⊢
    rw [unknownAxisRefs_fill, lengthOffenders_fill]
    exact h
  have h1 : (validate ((validate s).1)).1 = (validate s).1 := by
    rw [validate_fst ((validate s).1), validate_fst s, List.map_map]
    rfl
  exact Prod.ext h1 h2

theorem validate_idempotent_witness :
    (validate exampleStore).2 = [] ∧
    validate ((validate exampleStore).1) = ((validate exampleStore).1, []) :=
  ⟨by decide, validate_idempotent exampleStore (by decide)⟩

/-- C10: after any call to `validate` — also one that raises — every field of
the (in-place mutated) store carries the `axes`, `unit` and `values` keys,
absent ones having been filled with `[]`, `''` and `[]` respectively; the
mutation is not rolled back on failure. -/
theorem validate_always_fills (s : Store) :
    (validate s).1 = s.map (fun p => (p.1,
      Field.mk (some (p.2.axes.getD [])) (some (p.2.unit.getD "")) (some (p.2.values.getD [])))) ∧
    ((validate s).1.all
      (fun p => p.2.axes.isSome && p.2.unit.isSome && p.2.values.isSome)) = true := by
  refine ⟨validate_fst s, ?_⟩
  rw [validate_fst s]
  simp [List.all_eq_true, fill]

theorem axesOf_fill (f : Field) : axesOf (fill f) = axesOf f := rfl

theorem unitOf_fill (f : Field) : unitOf (fill f) = unitOf f := rfl

theorem valuesOf_fill (f : Field) : valuesOf (fill f) = valuesOf f := rfl

/-- `find?` by key commutes with mapping a key-preserving function. -/
theorem lookupPreserve {α β : Type} (l : List (String × α)) (g : String × α → String × β)
    (hg : ∀ p, (g p).1 = p.1) (m : String) :
    (l.map g).find? (fun p => p.1 == m) = (l.find? (fun p => p.1 == m)).map g := by
  rw [List.find?_map]
  have hpred : ((fun p : String × β => p.1 == m) ∘ g) = (fun p : String × α => p.1 == m) :=
    funext fun p => by
      show ((g p).1 == m) = (p.1 == m)
      rw [hg]
  rw [hpred]

theorem lookupF_mapfill (s : Store) (n : String) :
    lookupF (s.map (fun p => (p.1, fill p.2))) n = (lookupF s n).map fill := by
  unfold lookupF
  rw [lookupPreserve s (fun p => (p.1, fill p.2)) (fun p => rfl) n]
  cases s.find? (fun p => p.1 == n) <;> rfl

/-- `structure()`: axes and unit per field, values stripped; requires (and
triggers) validation. -/
def structureOf (s : Store) : Except Err (List (String × List String × String)) :=
  let p := validate s
  if p.2 = [] then .ok (p.1.map (fun q => (q.1, axesOf q.2, unitOf q.2)))
  else .error (.structural p.2)

/-- The structure of a store, read off the raw fields. -/
def structList (s : Store) : List (String × List String × String) :=
  s.map (fun q => (q.1, axesOf q.2, unitOf q.2))

theorem structureOf_ok (s : Store) (h : (validate s).2 = []) :
    structureOf s = Except.ok (structList s) := by
  unfold structureOf structList
  simp only [h, if_pos, validate_fst, List.map_map]
  rfl

/-- Dict lookup in a structure mapping. -/
def lookupS (l : List (String × List String × String)) (k : String) :
    Option (List String × String) :=
  (l.find? (fun p => p.1 == k)).map Prod.snd

/-- Python `==` on two `structure()` dicts: same keys, same value per key
(order-insensitive on keys). -/
def dictEq (a b : List (String × List String × String)) : Bool :=
  a.all (fun p => lookupS b p.1 == some p.2) && b.all (fun p => lookupS a p.1 == some p.2)

/-- `label(name)`: unit-suffixed field name; `ValueError` (role: LookupError)
on a missing name. -/
def label (s : Store) (name : String) : Except Err String :=
  let p := validate s
  if p.2 = [] then
    match lookupF p.1 name with
    | none => .error (.lookupError ("No field \x27" ++ name ++ "\x27 present."))
    | some f => if unitOf f ≠ "" then .ok (name ++ " (" ++ unitOf f ++ ")") else .ok name
  else .error (.structural p.2)

/-- `dependents()`: names of fields with a non-empty `axes`, in store order. -/
def dependents (s : Store) : Except Err (List String) :=
  let p := validate s
  if p.2 = [] then .ok ((p.1.filter (fun q => (axesOf q.2).length != 0)).map Prod.fst)
  else .error (.structural p.2)

/-- `self[k]['values'] += v['values']`: update one field's values in place. -/
def updateValues (s : Store) (k : String) (newvals : List Int) : Store :=
  s.map (fun p => if p.1 = k then (p.1, { p.2 with values := some newvals }) else p)

/-- The mutation loop of `append`: walk `newdata.items()`, concatenating each
field's values onto `self`'s. -/
def appendVals : Store → List (String × Field) → Except Err Store
  | acc, [] => .ok acc
  | acc, (k, v) :: rest =>
      match lookupF acc k with
      | none => .error (.keyError k)
      | some f => appendVals (updateValues acc k (valuesOf f ++ valuesOf v)) rest

/-- `append(newdata)`: when the structures are equal, concatenate values in
place; when they differ the method body simply falls through — no error is
raised and `self` is left as validation left it.  The returned store is the
post-call state of `self`. -/
def append (s t : Store) : Except Err Store := do
  let ss ← structureOf s
  let ts ← structureOf t
  if dictEq ss ts then appendVals (validate s).1 (validate t).1
  else .ok (validate s).1

/-- The construction loop of `__add__`: `s[k]['values'] = self[k]['values'] +
newdata[k]['values']` over `self`'s items. -/
def buildAdd (t' : Store) : Store → Except Err Store
  | [] => .ok []
  | (k, f) :: rest =>
      match lookupF t' k with
      | none => .error (.keyError k)
      | some g => do
          let r ← buildAdd t' rest
          .ok ((k, Field.mk (some (axesOf f)) (some (unitOf f)) (some (valuesOf f ++ valuesOf g))) :: r)

/-- `__add__`: returns a fresh store with concatenated values when the
structures are equal, raises `ValueError('Incompatible data structures.')`
otherwise. -/
def addOp (s t : Store) : Except Err Store := do
  let ss ← structureOf s
  let ts ← structureOf t
  if dictEq ss ts then buildAdd (validate t).1 (validate s).1
  else .error (.compat "Incompatible data structures.")

/-- C6: on a validated store, `label` fails with the lookup error for an
absent name; for a present name it returns the name unchanged when the unit
is empty and `name (unit)` otherwise. -/
theorem label_spec (s : Store) (name : String) (h : (validate s).2 = []) :
    (lookupF s name = none →
      label s name = Except.error (Err.lookupError ("No field \x27" ++ name ++ "\x27 present."))) ∧
    (∀ f, lookupF s name = some f →
      (unitOf f = "" → label s name = Except.ok name) ∧
      (unitOf f ≠ "" → label s name = Except.ok (name ++ " (" ++ unitOf f ++ ")"))) := by
  have hL : lookupF (validate s).1 name = (lookupF s name).map fill := by
    rw [validate_fst]
    exact lookupF_mapfill s name
  constructor
  · intro hn
    unfold label
    simp only [h, if_pos]
    rw [hL, hn]
    rfl
  · intro f hf
    constructor <;> intro hu
    · unfold label
      simp only [h, if_pos]
      rw [hL, hf]
      simp [unitOf_fill, hu]
    · unfold label
      simp only [h, if_pos]
      rw [hL, hf]
      simp [unitOf_fill, hu]

/-- A store with a unit-less field. -/
def plainStore : Store := [("d", ⟨some [], some "", some [7]⟩)]

theorem label_spec_witness :
    label exampleStore "amplitude" = Except.ok "amplitude (V)" ∧
    label exampleStore "nope" =
      Except.error (Err.lookupError ("No field \x27nope\x27 present.")) ∧
    label plainStore "d" = Except.ok "d" :=
  ⟨((label_spec exampleStore "amplitude" (by decide)).2
      ⟨some ["freq", "power"], some "V", some [1, 2, 3, 4]⟩ (by decide)).2 (by decide),
   (label_spec exampleStore "nope" (by decide)).1 (by decide),
   ((label_spec plainStore "d" (by decide)).2 ⟨some [], some "", some [7]⟩ (by decide)).1 (by decide)⟩

/-- C8: on a validated store, `dependents` returns a list that is a
subsequence of the store's key sequence (store iteration order) and contains
exactly the names carried by a field with non-empty `axes`. -/
theorem dependents_spec (s : Store) (h : (validate s).2 = []) :
    ∃ l, dependents s = Except.ok l ∧ l.Sublist (keys s) ∧
      (∀ x, x ∈ l ↔ ∃ f, (x, f) ∈ s ∧ axesOf f ≠ []) := by
  refine ⟨((validate s).1.filter (fun q => (axesOf q.2).length != 0)).map Prod.fst, ?_, ?_, ?_⟩
  · unfold dependents
    simp only [h, if_pos]
  · have h1 : ((validate s).1.filter (fun q => (axesOf q.2).length != 0)).Sublist (validate s).1 :=
      List.filter_sublist _
    have h2 := h1.map Prod.fst
    rw [show ((validate s).1.map Prod.fst) = keys s from keys_validate_fst s] at h2
    exact h2
  · intro x
    rw [validate_fst]
    constructor
    · intro hx
      rw [List.mem_map] at hx
      obtain ⟨q, hq, hfst⟩ := hx
      rw [List.mem_filter] at hq
      obtain ⟨hmem, hax⟩ := hq
      rw [List.mem_map] at hmem
      obtain ⟨p, hp, hgp⟩ := hmem
      refine ⟨p.2, ?_, ?_⟩
      · have : (x, p.2) = p := by
          rw [← hgp] at hfst
          exact Prod.ext hfst.symm rfl
        rw [this]
        exact hp
      · intro hnil
        rw [← hgp] at hax
        simp [axesOf_fill, hnil] at hax
    · rintro ⟨f, hf, hax⟩
      rw [List.mem_map]
      refine ⟨(x, fill f), ?_, rfl⟩
      rw [List.mem_filter]
      refine ⟨List.mem_map_of_mem _ hf, ?_⟩
      simp only [axesOf_fill, bne_iff_ne, ne_eq]
      intro hlen
      exact hax (List.eq_nil_of_length_eq_zero hlen)

theorem dependents_spec_witness :
    dependents exampleStore = Except.ok ["amplitude"] ∧
    List.Sublist ["amplitude"] (keys exampleStore) := by
  obtain ⟨l, h1, h2, h3⟩ := dependents_spec exampleStore (by decide)
  have hl : l = ["amplitude"] :=
    Except.ok.inj (h1.symm.trans
      (show dependents exampleStore = Except.ok ["amplitude"] from rfl))
  subst hl
  exact ⟨h1, h2⟩

theorem lookupF_updateValues_isSome (s : Store) (k : String) (nv : List Int) (m : String) :
    (lookupF (updateValues s k nv) m).isSome = (lookupF s m).isSome := by
  unfold lookupF updateValues
  rw [lookupPreserve s (fun p => if p.1 = k then (p.1, { p.2 with values := some nv }) else p)
    (fun p => by by_cases h : p.1 = k <;> simp [h]) m]
  cases s.find? (fun p => p.1 == m) <;> rfl

theorem appendVals_ok (l : List (String × Field)) :
    ∀ acc : Store, (∀ p ∈ l, (lookupF acc p.1).isSome = true) →
      ∃ r, appendVals acc l = Except.ok r := by
  induction l with
  | nil => exact fun acc _ => ⟨acc, rfl⟩
  | cons hd tl ih =>
      intro acc hall
      obtain ⟨k, v⟩ := hd
      have hk := hall (k, v) (List.mem_cons_self _ _)
      obtain ⟨f, hf⟩ := Option.isSome_iff_exists.mp hk
      simp only [appendVals, hf]
      apply ih
      intro p hp
      rw [lookupF_updateValues_isSome]
      exact hall p (List.mem_cons_of_mem _ hp)

theorem buildAdd_ok (t' : Store) (l : Store) :
    (∀ p ∈ l, (lookupF t' p.1).isSome = true) → ∃ r, buildAdd t' l = Except.ok r := by
  induction l with
  | nil => exact fun _ => ⟨[], rfl⟩
  | cons hd tl ih =>
      intro hall
      obtain ⟨k, f⟩ := hd
      obtain ⟨g, hg⟩ := Option.isSome_iff_exists.mp (hall (k, f) (List.mem_cons_self _ _))
      obtain ⟨r, hr⟩ := ih (fun p hp => hall p (List.mem_cons_of_mem _ hp))
      refine ⟨(k, Field.mk (some (axesOf f)) (some (unitOf f))
        (some (valuesOf f ++ valuesOf g))) :: r, ?_⟩
      simp only [buildAdd, hg, hr]
      rfl

@[simp]
theorem except_bind_ok {α β : Type} (a : α) (f : α → Except Err β) :
    (Except.ok a >>= f : Except Err β) = f a := rfl

theorem lookupS_structList_isSome (t : Store) (m : String) :
    (lookupS (structList t) m).isSome = (lookupF t m).isSome := by
  unfold lookupS structList lookupF
  rw [lookupPreserve t (fun q => (q.1, axesOf q.2, unitOf q.2)) (fun q => rfl) m]
  cases t.find? (fun p => p.1 == m) <;> rfl

theorem lookupF_validate_isSome (t : Store) (m : String) :
    (lookupF (validate t).1 m).isSome = (lookupF t m).isSome := by
  rw [validate_fst, lookupF_mapfill]
  cases lookupF t m <;> rfl

theorem dictEq_keys_left (s t : Store) (hEq : dictEq (structList s) (structList t) = true) :
    ∀ p ∈ (validate s).1, (lookupF (validate t).1 p.1).isSome = true := by
  intro p hp
  rw [validate_fst, List.mem_map] at hp
  obtain ⟨q, hq, hgq⟩ := hp
  have hq1 : p.1 = q.1 := by rw [← hgq]
  unfold dictEq at hEq
  rw [Bool.and_eq_true] at hEq
  have hall := hEq.1
  rw [List.all_eq_true] at hall
  have hval := hall _ (List.mem_map_of_mem (fun x => (x.1, axesOf x.2, unitOf x.2)) hq)
  rw [beq_iff_eq] at hval
  rw [hq1, lookupF_validate_isSome, ← lookupS_structList_isSome, hval]
  rfl

theorem dictEq_keys_right (s t : Store) (hEq : dictEq (structList s) (structList t) = true) :
    ∀ p ∈ (validate t).1, (lookupF (validate s).1 p.1).isSome = true := by
  intro p hp
  rw [validate_fst, List.mem_map] at hp
  obtain ⟨q, hq, hgq⟩ := hp
  have hq1 : p.1 = q.1 := by rw [← hgq]
  unfold dictEq at hEq
  rw [Bool.and_eq_true] at hEq
  have hall := hEq.2
  rw [List.all_eq_true] at hall
  have hval := hall _ (List.mem_map_of_mem (fun x => (x.1, axesOf x.2, unitOf x.2)) hq)
  rw [beq_iff_eq] at hval
  rw [hq1, lookupF_validate_isSome, ← lookupS_structList_isSome, hval]
  rfl

/-- C5 (amended): for validated stores, `__add__` succeeds exactly when the
two `structure()` dicts are equal and raises the compatibility error when
they differ; `append` concatenates when they are equal but, when they
differ, raises nothing — it returns with `self` unchanged beyond
validation's default-filling. -/
theorem append_add_structure (s t : Store)
    (hs : (validate s).2 = []) (ht : (validate t).2 = []) :
    (dictEq (structList s) (structList t) = true →
      (∃ r, addOp s t = Except.ok r) ∧ (∃ r, append s t = Except.ok r)) ∧
    (dictEq (structList s) (structList t) = false →
      addOp s t = Except.error (Err.compat "Incompatible data structures.") ∧
      append s t = Except.ok ((validate s).1)) := by
  constructor
  · intro hEq
    constructor
    · obtain ⟨r, hr⟩ := buildAdd_ok (validate t).1 (validate s).1 (dictEq_keys_left s t hEq)
      refine ⟨r, ?_⟩
      unfold addOp
      rw [structureOf_ok s hs, structureOf_ok t ht]
      simp [hEq, hr]
    · obtain ⟨r, hr⟩ := appendVals_ok (validate t).1 (validate s).1 (dictEq_keys_right s t hEq)
      refine ⟨r, ?_⟩
      unfold append
      rw [structureOf_ok s hs, structureOf_ok t ht]
      simp [hEq, hr]
  · intro hNe
    constructor
    · unfold addOp
      rw [structureOf_ok s hs, structureOf_ok t ht]
      simp [hNe]
    · unfold append
      rw [structureOf_ok s hs, structureOf_ok t ht]
      simp [hNe]

/-- Two validated single-field stores whose structures differ (unit `''`
versus `'V'`). -/
def csStore : Store := [("x", ⟨some [], some "", some [1]⟩)]

def ctStore : Store := [("x", ⟨some [], some "V", some [2]⟩)]

theorem append_silent_on_mismatch :
    structList csStore ≠ structList ctStore ∧
    dictEq (structList csStore) (structList ctStore) = false ∧
    append csStore ctStore = Except.ok ((validate csStore).1) :=
  ⟨by decide, by decide, rfl⟩

theorem append_add_structure_witness :
    addOp csStore ctStore = Except.error (Err.compat "Incompatible data structures.") ∧
    append csStore ctStore = Except.ok ((validate csStore).1) :=
  (append_add_structure csStore ctStore (by decide) (by decide)).2 (by decide)

/-- The length `zip` truncates to: the minimum column length. -/
def minLen (cols : List (List Int)) : Nat :=
  match cols with
  | [] => 0
  | c :: cs => cs.foldl (fun a l => min a l.length) c.length

/-- `list(zip(*axvals))`: positional tuples, truncated to the shortest
column (`zip()` with no argument gives the empty sequence). -/
def zipCols (cols : List (List Int)) : List (List Int) :=
  match cols with
  | [] => []
  | c :: cs =>
      (List.range (minLen (c :: cs))).map (fun i => (c :: cs).map (fun l => l.getD i 0))

/-- Unique values of a sequence in order of first appearance: the level set
the table collaborator derives for one component of a composite index
(`pandas` factorization). -/
def uniq (l : List Int) : List Int := l.reverse.dedup.reverse

/-- The `j`-th component sequence of a tuple list. -/
def column (tuples : List (List Int)) (j : Nat) : List Int :=
  tuples.map (fun t => t.getD j 0)

/-- One multi-index table: the composite row index (`tuples`, one per data
point, level names `axnames`) and the single data column. -/
structure MIFrame where
  axnames : List String
  tuples : List (List Int)
  colname : String
  colvals : List Int
deriving Repr, DecidableEq

/-- `self[axname]['values']` for each axis name (a missing name would be a
`KeyError`; validation rules it out). -/
def getAxVals (s' : Store) : List String → Except Err (List (List Int))
  | [] => .ok []
  | a :: rest =>
      match lookupF s' a with
      | none => .error (.keyError a)
      | some g => do
          let r ← getAxVals s' rest
          .ok (valuesOf g :: r)

/-- The loop of `to_multiindex_dataframes` (units not requested): one frame
per field with non-empty `axes`, zero-axis fields skipped; building a
composite index from an empty tuple list is the collaborator error
`Cannot infer number of levels from empty list`. -/
def buildFrames (s' : Store) : List (String × Field) → Except Err (List (String × MIFrame))
  | [] => .ok []
  | (n, f) :: rest =>
      if axesOf f = [] then buildFrames s' rest
      else do
        let axvals ← getAxVals s' (axesOf f)
        let tuples := zipCols axvals
        if tuples = [] then
          .error (.valueError "Cannot infer number of levels from empty list")
        else do
          let r ← buildFrames s' rest
          .ok ((n, ⟨axesOf f, tuples, n, valuesOf f⟩) :: r)

def to_multiindex_dataframes (s : Store) : Except Err (List (String × MIFrame)) :=
  let p := validate s
  if p.2 = [] then buildFrames p.1 p.1 else .error (.structural p.2)

def lookupFrame (dfs : List (String × MIFrame)) (n : String) : Option MIFrame :=
  (dfs.find? (fun p => p.1 == n)).map Prod.snd

/-- The labeled array produced for one dependent field after unstacking the
composite row dimension and squeezing the single-column dimension: grid
dimension names, the realized coordinate values per dimension, and the input
rows (coordinate tuple paired with the data value); a coordinate combination
with no row materializes as a not-a-number gap. -/
structure XArr where
  dims : List String
  coords : List (List Int)
  rows : List (List Int × Int)
deriving Repr, DecidableEq

/-- `to_xarray(name)`: index the frame dict built for *all* dependents
(`KeyError` when `name` has no frame), wrap in a labeled array, unstack the
composite row dimension into one grid dimension per level and squeeze away
the incidental column dimension (the synthetic row/column dimension names are
assumed not to collide with field names).  Unstacking a composite index with
duplicate entries is the collaborator's reshape error. -/
def to_xarray (s : Store) (name : String) : Except Err XArr := do
  let dfs ← to_multiindex_dataframes s
  match lookupFrame dfs name with
  | none => .error (.keyError name)
  | some mif =>
      if mif.tuples.Nodup then
        .ok ⟨mif.axnames,
             (List.range mif.axnames.length).map (fun j => uniq (column mif.tuples j)),
             mif.tuples.zip mif.colvals⟩
      else .error (.valueError "Index contains duplicate entries, cannot reshape")

/-- Cartesian product of coordinate lists, row-major. -/
def cartProd : List (List Int) → List (List Int)
  | [] => [[]]
  | c :: cs => c.flatMap (fun x => (cartProd cs).map (fun t => x :: t))

/-- The grid value at one coordinate tuple: the matching input row's value,
or `none` (the not-a-number gap marker) when no row matches. -/
def cellAt (rows : List (List Int × Int)) (c : List Int) : Option Int :=
  (rows.find? (fun p => p.1 == c)).map Prod.snd

/-- `arr.values` flattened: every coordinate combination with its (possibly
missing) value. -/
def gridCells (arr : XArr) : List (List Int × Option Int) :=
  (cartProd arr.coords).map (fun c => (c, cellAt arr.rows c))

/-- The positions marked invalid by the masking step: when `mask_nan` holds
and the reshaped grid contains gaps, `np.ma.masked_where(np.isnan(...))`
masks exactly the gap positions; otherwise the raw array is kept and nothing
is masked. -/
def maskedCells (mask : Bool) (arr : XArr) : List (List Int) :=
  if mask && (gridCells arr).any (fun p => p.2.isNone) then
    (gridCells arr).filterMap (fun p => if p.2.isNone then some p.1 else none)
  else []

/-- `ret[idxn] = ...`: dict assignment. -/
def upsert (ret : List (String × (List Int × String))) (k : String) (v : List Int × String) :
    List (String × (List Int × String)) :=
  if ret.any (fun p => p.1 == k) then ret.map (fun p => if p.1 == k then (k, v) else p)
  else ret ++ [(k, v)]

/-- The inner loop of `get_grid` over `arr.indexes`: record each axis's
coordinate values and unit under its name, failing with the shape-conflict
error when the name is already recorded with a differently-shaped value
array.  `ret` starts empty at every call because the source re-initializes
`ret = {}` inside the per-field loop. -/
def buildRet (s' : Store) : List (String × List Int) → List (String × (List Int × String)) →
    Except Err (List (String × (List Int × String)))
  | [], ret => .ok ret
  | (idxn, vals) :: rest, ret =>
      let conflict := match (ret.find? (fun p => p.1 == idxn)).map Prod.snd with
        | some (vs, _) => vals.length != vs.length
        | none => false
      if conflict then
        .error (.shapeConflict ("\x27" ++ idxn ++ "\x27 used in different shapes. Arrays cannot be used as data and axis in a single grid data set."))
      else
        match lookupF s' idxn with
        | none => .error (.keyError idxn)
        | some f => buildRet s' rest (upsert ret idxn (vals, unitOf f))

def axisIndexes (arr : XArr) : List (String × List Int) := arr.dims.zip arr.coords

/-- The per-field loop of `get_grid`: for each requested name build the
array, rebuild `ret` from scratch (axis entries plus, after the masking
step, the dependent entry), and throw the result away — the next iteration
rebinds `ret`, and the function body ends in a bare `return`. -/
def gridLoop (s : Store) (mask : Bool) : List String → Except Err Unit
  | [] => .ok ()
  | n :: rest => do
      let arr ← to_xarray s n
      let _ret ← buildRet (validate s).1 (axisIndexes arr) []
      let _v := maskedCells mask arr
      match lookupF (validate s).1 n with
      | none => .error (.keyError n)
      | some _ => gridLoop s mask rest

/-- `get_grid(name=None, mask_nan=True)`: resolve the default field list via
`dependents()`, run the per-field loop, and return `None` (`Unit`). -/
def get_grid (s : Store) (arg : Option (List String)) (mask : Bool) : Except Err Unit := do
  let names ← match arg with
    | none => dependents s
    | some l => pure l
  gridLoop s mask names

@[simp]
theorem except_bind_error {α β : Type} (e : Err) (f : α → Except Err β) :
    (Except.error e >>= f : Except Err β) = Except.error e := rfl

theorem uniq_nodup (l : List Int) : (uniq l).Nodup := by
  unfold uniq
  rw [List.nodup_reverse]
  exact List.nodup_dedup _

theorem mem_uniq (l : List Int) (x : Int) : x ∈ uniq l ↔ x ∈ l := by
  unfold uniq
  simp [List.mem_reverse, List.mem_dedup]

theorem cellAt_eq_none_iff (rows : List (List Int × Int)) (c : List Int) :
    cellAt rows c = none ↔ c ∉ rows.map Prod.fst := by
  unfold cellAt
  rw [Option.map_eq_none', List.find?_eq_none]
  simp only [beq_iff_eq, List.mem_map]
  constructor
  · rintro h ⟨p, hp, hfst⟩
    exact h p hp hfst
  · intro h p hp hpc
    exact h ⟨p, hp, hpc⟩

theorem cartProd_nodup (ls : List (List Int)) (h : ∀ l ∈ ls, l.Nodup) :
    (cartProd ls).Nodup := by
  induction ls with
  | nil => simp [cartProd]
  | cons c cs ih =>
      show (c.flatMap fun x => (cartProd cs).map (fun t => x :: t)).Nodup
      refine List.nodup_flatMap.mpr ⟨?_, ?_⟩
      · intro x _
        have hinj : Function.Injective (fun t : List Int => x :: t) := by
          intro a b hab
          simpa using hab
        exact (ih (fun l hl => h l (List.mem_cons_of_mem _ hl))).map hinj
      · have hc : c.Nodup := h c (List.mem_cons_self _ _)
        refine List.Pairwise.imp ?_ hc
        intro a b hab t ht ht'
        rw [List.mem_map] at ht ht'
        obtain ⟨u, _, hu⟩ := ht
        obtain ⟨v, _, hv⟩ := ht'
        rw [← hu] at hv
        exact hab (List.cons.inj hv).1.symm

theorem filterMap_single {α : Type} [DecidableEq α] (l : List α) (f : α → Option α) (c0 : α)
    (hnd : l.Nodup) (hc0 : c0 ∈ l)
    (hf : ∀ c ∈ l, f c = if c = c0 then some c0 else none) :
    l.filterMap f = [c0] := by
  induction l with
  | nil => cases hc0
  | cons a t ih =>
      rw [List.filterMap_cons]
      rcases List.mem_cons.mp hc0 with heq | hmem
      · subst heq
        rw [hf c0 (List.mem_cons_self _ _), if_pos rfl]
        have ht : t.filterMap f = [] := by
          rw [List.filterMap_eq_nil_iff]
          intro c hc
          rw [hf c (List.mem_cons_of_mem _ hc), if_neg]
          intro hcc
          subst hcc
          exact (List.nodup_cons.mp hnd).1 hc
        rw [ht]
      · have ha : a ≠ c0 := by
          rintro rfl
          exact (List.nodup_cons.mp hnd).1 hmem
        rw [hf a (List.mem_cons_self _ _), if_neg ha]
        exact ih (List.nodup_cons.mp hnd).2 hmem (fun c hc => hf c (List.mem_cons_of_mem _ hc))

theorem to_xarray_coords_nodup (s : Store) (name : String) (arr : XArr)
    (h : to_xarray s name = Except.ok arr) : ∀ l ∈ arr.coords, l.Nodup := by
  intro l hl
  unfold to_xarray at h
  cases hdfs : to_multiindex_dataframes s with
  | error e =>
      rw [hdfs, except_bind_error] at h
      exact Except.noConfusion h
  | ok dfs =>
      rw [hdfs, except_bind_ok] at h
      split at h
      · exact Except.noConfusion h
      · split at h
        · have harr := Except.ok.inj h
          rw [← harr] at hl
          simp only [List.mem_map] at hl
          obtain ⟨j, _, hj⟩ := hl
          rw [← hj]
          exact uniq_nodup _
        · exact Except.noConfusion h

/-- C3: for a grid built for one dependent field, when every coordinate
combination of the realized axis values has an input row, masking marks no
position; when exactly one combination `c0` is absent and all others are
present, masking marks exactly the one position `c0`. -/
theorem grid_roundtrip_masking :
    (∀ (s : Store) (n : String) (arr : XArr), to_xarray s n = Except.ok arr →
      (∀ c ∈ cartProd arr.coords, c ∈ arr.rows.map Prod.fst) →
      maskedCells true arr = []) ∧
    (∀ (s : Store) (n : String) (arr : XArr) (c0 : List Int), to_xarray s n = Except.ok arr →
      c0 ∈ cartProd arr.coords →
      c0 ∉ arr.rows.map Prod.fst →
      (∀ c ∈ cartProd arr.coords, c ≠ c0 → c ∈ arr.rows.map Prod.fst) →
      maskedCells true arr = [c0]) := by
  constructor
  · intro s n arr _ h2
    have hany : (gridCells arr).any (fun p => p.2.isNone) = false := by
      rw [List.any_eq_false]
      intro p hp
      unfold gridCells at hp
      rw [List.mem_map] at hp
      obtain ⟨c, hc, hpc⟩ := hp
      rw [← hpc]
      intro hnone
      have hcnone : cellAt arr.rows c = none := by
        rw [Option.isNone_iff_eq_none] at hnone
        exact hnone
      rw [cellAt_eq_none_iff] at hcnone
      exact hcnone (h2 c hc)
    unfold maskedCells
    rw [hany]
    rfl
  · intro s n arr c0 h hc0 hn0 hrest
    have hnone : cellAt arr.rows c0 = none := (cellAt_eq_none_iff _ _).mpr hn0
    have hany : (gridCells arr).any (fun p => p.2.isNone) = true := by
      rw [List.any_eq_true]
      refine ⟨(c0, cellAt arr.rows c0), ?_, ?_⟩
      · unfold gridCells
        exact List.mem_map_of_mem _ hc0
      · show (cellAt arr.rows c0).isNone = true
        rw [hnone]
        rfl
    unfold maskedCells
    rw [hany]
    rw [show (true && true) = true from rfl, if_pos rfl]
    unfold gridCells
    rw [List.filterMap_map]
    refine filterMap_single _ _ c0 (cartProd_nodup _ (to_xarray_coords_nodup s n arr h)) hc0 ?_
    intro c hc
    show (if (cellAt arr.rows c).isNone = true then some c else none) =
      if c = c0 then some c0 else none
    by_cases hcc : c = c0
    · subst hcc
      simp [hnone]
    · rw [if_neg hcc]
      have hmem := hrest c hc hcc
      cases hca : cellAt arr.rows c with
      | none =>
          rw [cellAt_eq_none_iff] at hca
          exact absurd hmem hca
      | some v => rfl

/-- The example store with the last row dropped: the `(freq=2, power=1)`
combination is missing. -/
def exampleStoreGap : Store :=
  [("amplitude", ⟨some ["freq", "power"], some "V", some [1, 2, 3]⟩),
   ("freq", ⟨some [], some "Hz", some [1, 1, 2]⟩),
   ("power", ⟨some [], some "dBm", some [0, 1, 0]⟩)]

/-- The array `to_xarray` builds for `amplitude` in the full example store. -/
def arrFull : XArr :=
  ⟨["freq", "power"], [[1, 2], [0, 1]],
   [([1, 0], 1), ([1, 1], 2), ([2, 0], 3), ([2, 1], 4)]⟩

/-- The array `to_xarray` builds for `amplitude` once one row is dropped. -/
def arrGap : XArr :=
  ⟨["freq", "power"], [[1, 2], [0, 1]], [([1, 0], 1), ([1, 1], 2), ([2, 0], 3)]⟩

theorem grid_roundtrip_masking_witness :
    maskedCells true arrFull = [] ∧ maskedCells true arrGap = [[2, 1]] :=
  ⟨grid_roundtrip_masking.1 exampleStore "amplitude" arrFull rfl (by decide),
   grid_roundtrip_masking.2 exampleStoreGap "amplitude" arrGap [2, 1] rfl
     (by decide) (by decide) (by decide)⟩

theorem lookupF_eq_of_mem (s : Store) (hnd : (keys s).Nodup) (x : String) (g : Field)
    (hmem : (x, g) ∈ s) : lookupF s x = some g := by
  induction s with
  | nil => cases hmem
  | cons hd tl ih =>
      obtain ⟨n, v⟩ := hd
      simp only [keys, List.map_cons] at hnd
      rcases List.mem_cons.mp hmem with heq | hmem'
      · have h1 : x = n := congrArg Prod.fst heq
        have h2 : g = v := congrArg Prod.snd heq
        subst h1
        subst h2
        unfold lookupF
        rw [List.find?_cons_of_pos _ (by simp)]
        rfl
      · have hx : x ≠ n := by
          rintro rfl
          exact (List.nodup_cons.mp hnd).1 (List.mem_map_of_mem Prod.fst hmem')
        unfold lookupF
        rw [List.find?_cons_of_neg _ (by simp [Ne.symm hx])]
        exact ih (by simpa [keys] using (List.nodup_cons.mp hnd).2) hmem'

theorem lookupFrame_buildFrames_none (s' : Store) (x : String) :
    ∀ (l : List (String × Field)) (dfs : List (String × MIFrame)),
      (∀ g, (x, g) ∈ l → axesOf g = []) →
      buildFrames s' l = Except.ok dfs → lookupFrame dfs x = none := by
  intro l
  induction l with
  | nil =>
      intro dfs _ h
      have hd : ([] : List (String × MIFrame)) = dfs := Except.ok.inj h
      rw [← hd]
      rfl
  | cons hd tl ih =>
      intro dfs hax h
      obtain ⟨n, f⟩ := hd
      by_cases hempty : axesOf f = []
      · simp only [buildFrames] at h
        rw [if_pos hempty] at h
        exact ih dfs (fun g hg => hax g (List.mem_cons_of_mem _ hg)) h
      · simp only [buildFrames] at h
        rw [if_neg hempty] at h
        cases hav : getAxVals s' (axesOf f) with
        | error e =>
            rw [hav, except_bind_error] at h
            exact Except.noConfusion h
        | ok axvals =>
            rw [hav, except_bind_ok] at h
            split at h
            · exact Except.noConfusion h
            · cases hbf : buildFrames s' tl with
              | error e =>
                  rw [hbf, except_bind_error] at h
                  exact Except.noConfusion h
              | ok r =>
                  rw [hbf, except_bind_ok] at h
                  have hd := Except.ok.inj h
                  rw [← hd]
                  by_cases hnx : n = x
                  · subst hnx
                    exact absurd (hax f (List.mem_cons_self _ _)) hempty
                  · unfold lookupFrame
                    rw [List.find?_cons_of_neg _ (by simp [hnx])]
                    exact ih r (fun g hg => hax g (List.mem_cons_of_mem _ hg)) hbf

/-- C9 (amended): a field with zero axes is skipped when gridding all
dependents (it never appears in `dependents()`), but explicitly requesting a
grid for it is not a no-op: `to_multiindex_dataframes()` holds no frame for
it, so `get_grid` fails with a `KeyError` for that name. -/
theorem zero_axes_field_grid (s : Store) (x : String) (f : Field) (mask : Bool)
    (dfs : List (String × MIFrame)) (l : List String)
    (hnd : (keys s).Nodup)
    (hx : lookupF s x = some f) (hax : axesOf f = [])
    (hdfs : to_multiindex_dataframes s = Except.ok dfs)
    (hdep : dependents s = Except.ok l) :
    x ∉ l ∧ get_grid s (some [x]) mask = Except.error (Err.keyError x) := by
  have hdfs' := hdfs
  have hval : (validate s).2 = [] := by
    by_contra hne
    unfold dependents at hdep
    rw [if_neg hne] at hdep
    exact Except.noConfusion hdep
  have hax' : ∀ g, (x, g) ∈ (validate s).1 → axesOf g = [] := by
    intro g hg
    rw [validate_fst, List.mem_map] at hg
    obtain ⟨q0, hq0, hgq⟩ := hg
    have h1 : q0.1 = x := congrArg Prod.fst hgq
    have h2 : fill q0.2 = g := congrArg Prod.snd hgq
    have hl0 : lookupF s x = some q0.2 := by
      refine lookupF_eq_of_mem s hnd x q0.2 ?_
      rw [← h1]
      simpa using hq0
    rw [hx] at hl0
    have hf2 : f = q0.2 := Option.some.inj hl0
    rw [← h2, axesOf_fill, ← hf2]
    exact hax
  refine ⟨?_, ?_⟩
  · intro hmem
    unfold dependents at hdep
    rw [if_pos hval] at hdep
    have hl := Except.ok.inj hdep
    rw [← hl] at hmem
    rw [List.mem_map] at hmem
    obtain ⟨q, hqf, hq1⟩ := hmem
    rw [List.mem_filter] at hqf
    obtain ⟨hqmem, hqp⟩ := hqf
    have : axesOf q.2 = [] := by
      refine hax' q.2 ?_
      have : (x, q.2) = q := Prod.ext hq1.symm rfl
      rw [this]
      exact hqmem
    rw [this] at hqp
    simp at hqp
  · have hlf : lookupFrame dfs x = none := by
      unfold to_multiindex_dataframes at hdfs
      rw [if_pos hval] at hdfs
      exact lookupFrame_buildFrames_none (validate s).1 x (validate s).1 dfs hax' hdfs
    have hxarr : to_xarray s x = Except.error (Err.keyError x) := by
      unfold to_xarray
      rw [hdfs', except_bind_ok, hlf]
    rw [show get_grid s (some [x]) mask = gridLoop s mask [x] from rfl]
    unfold gridLoop
    rw [hxarr, except_bind_error]

theorem get_grid_zero_axes_errors :
    (lookupF csStore "x").map axesOf = some [] ∧
    get_grid csStore (some ["x"]) true = Except.error (Err.keyError "x") := ⟨rfl, rfl⟩

/-- A store with one axis field and one proper dependent. -/
def axStore : Store :=
  [("x", ⟨some [], some "", some [1, 2]⟩), ("d", ⟨some ["x"], some "", some [3, 4]⟩)]

theorem zero_axes_field_grid_witness :
    ("x" ∉ (["d"] : List String)) ∧
    get_grid axStore (some ["x"]) true = Except.error (Err.keyError "x") :=
  zero_axes_field_grid axStore "x" ⟨some [], some "", some [1, 2]⟩ true
    [("d", ⟨["x"], [[1], [2]], "d", [3, 4]⟩)] ["d"]
    (by decide) rfl rfl rfl rfl

/-- C1: on the spec's own example store, `get_grid` runs to completion and
yields `None` — the per-field result dicts are rebuilt and discarded inside
the loop and the function body ends with a bare `return`, so no mapping of
axis and dependent entries is ever returned. -/
theorem get_grid_returns_none : get_grid exampleStore none true = Except.ok () := rfl

/-- Whether an error is the shape-conflict error. -/
def errConflict : Err → Bool
  | .shapeConflict _ => true
  | _ => false

/-- Whether a computation ended in the shape-conflict error. -/
def isShapeConflict {α : Type} : Except Err α → Bool
  | .error e => errConflict e
  | .ok _ => false

/-- The realized coordinate set an axis name denotes: unique values (in
order of first appearance) of the name's stored value column, truncated to
the common row count.  Within one `to_xarray` result every grid dimension's
coordinates are this function of its name alone. -/
def coordFn (s' : Store) (m : Nat) (a : String) : List Int :=
  uniq ((((lookupF s' a).map valuesOf).getD []).take m)

theorem foldl_min_le_init (cs : List (List Int)) :
    ∀ a : Nat, cs.foldl (fun a l => min a l.length) a ≤ a := by
  induction cs with
  | nil => intro a; exact le_refl a
  | cons d ds ih => intro a; exact le_trans (ih (min a d.length)) (min_le_left _ _)

theorem foldl_min_le_mem (cs : List (List Int)) :
    ∀ (a : Nat) (l : List Int), l ∈ cs → cs.foldl (fun a l => min a l.length) a ≤ l.length := by
  induction cs with
  | nil => intro a l hl; cases hl
  | cons d ds ih =>
      intro a l hl
      rcases List.mem_cons.mp hl with heq | hl'
      · subst heq
        exact le_trans (foldl_min_le_init ds _) (min_le_right _ _)
      · exact ih _ l hl'

theorem minLen_le (cols : List (List Int)) (l : List Int) (hl : l ∈ cols) :
    minLen cols ≤ l.length := by
  cases cols with
  | nil => cases hl
  | cons c cs =>
      rcases List.mem_cons.mp hl with heq | hl'
      · subst heq
        exact foldl_min_le_init cs _
      · exact foldl_min_le_mem cs _ l hl'

theorem range_map_getD (l : List Int) (m : Nat) (hm : m ≤ l.length) :
    (List.range m).map (fun i => l.getD i 0) = l.take m := by
  apply List.ext_getElem
  · simp [Nat.min_eq_left hm]
  · intro i h1 h2
    simp only [List.getElem_map, List.getElem_range, List.getElem_take]
    have hi : i < l.length := by
      simp at h1
      omega
    rw [List.getD_eq_getElem?_getD, List.getElem?_eq_getElem hi]
    rfl

theorem column_zipCols (cols : List (List Int)) (j : Nat) (hj : j < cols.length) :
    column (zipCols cols) j = (cols.get ⟨j, hj⟩).take (minLen cols) := by
  cases cols with
  | nil => exact absurd hj (Nat.not_lt_zero j)
  | cons c cs =>
      unfold column zipCols
      rw [List.map_map]
      have hpt : ∀ i ∈ List.range (minLen (c :: cs)),
          (((fun t : List Int => t.getD j 0) ∘ fun i => (c :: cs).map (fun l => l.getD i 0)) i) =
            ((c :: cs).get ⟨j, hj⟩).getD i 0 := by
        intro i _
        show (((c :: cs).map (fun l => l.getD i 0)).getD j 0) = ((c :: cs).get ⟨j, hj⟩).getD i 0
        rw [List.getD_eq_getElem?_getD, List.getElem?_map, List.getElem?_eq_getElem hj]
        rfl
      rw [List.map_congr_left hpt]
      exact range_map_getD _ _ (minLen_le (c :: cs) _ (List.get_mem _ _ hj))

theorem getAxVals_eq (s' : Store) (axs : List String) (axvals : List (List Int))
    (h : getAxVals s' axs = Except.ok axvals) :
    axvals = axs.map (fun a => ((lookupF s' a).map valuesOf).getD []) := by
  induction axs generalizing axvals with
  | nil =>
      have hd := Except.ok.inj h
      rw [← hd]
      rfl
  | cons a rest ih =>
      simp only [getAxVals] at h
      split at h
      · exact Except.noConfusion h
      · rename_i g hl
        cases hr : getAxVals s' rest with
        | error e =>
            rw [hr, except_bind_error] at h
            exact Except.noConfusion h
        | ok r =>
            rw [hr, except_bind_ok] at h
            have hd := Except.ok.inj h
            rw [← hd, List.map_cons, ih r hr, hl]
            rfl

theorem frames_inv (s' : Store) (l : List (String × Field)) :
    ∀ dfs : List (String × MIFrame), buildFrames s' l = Except.ok dfs →
      ∀ q ∈ dfs, ∃ axvals, getAxVals s' q.2.axnames = Except.ok axvals ∧
        q.2.tuples = zipCols axvals := by
  induction l with
  | nil =>
      intro dfs h q hq
      have hd := Except.ok.inj h
      rw [← hd] at hq
      cases hq
  | cons hd tl ih =>
      intro dfs h q hq
      obtain ⟨n, f⟩ := hd
      by_cases hempty : axesOf f = []
      · simp only [buildFrames] at h
        rw [if_pos hempty] at h
        exact ih dfs h q hq
      · simp only [buildFrames] at h
        rw [if_neg hempty] at h
        cases hav : getAxVals s' (axesOf f) with
        | error e =>
            rw [hav, except_bind_error] at h
            exact Except.noConfusion h
        | ok axvals =>
            rw [hav, except_bind_ok] at h
            split at h
            · exact Except.noConfusion h
            · cases hbf : buildFrames s' tl with
              | error e =>
                  rw [hbf, except_bind_error] at h
                  exact Except.noConfusion h
              | ok r =>
                  rw [hbf, except_bind_ok] at h
                  have hd2 := Except.ok.inj h
                  rw [← hd2] at hq
                  rcases List.mem_cons.mp hq with heq | hq'
                  · rw [heq]
                    exact ⟨axvals, hav, rfl⟩
                  · exact ih r hbf q hq'

theorem lookupFrame_mem (dfs : List (String × MIFrame)) (x : String) (mif : MIFrame)
    (h : lookupFrame dfs x = some mif) : ∃ p ∈ dfs, p.2 = mif := by
  unfold lookupFrame at h
  cases hf : dfs.find? (fun p => p.1 == x) with
  | none =>
      rw [hf] at h
      exact Option.noConfusion h
  | some p =>
      rw [hf] at h
      exact ⟨p, List.mem_of_find?_eq_some hf, Option.some.inj h⟩

theorem mem_zip_map_range {α β : Type} (L : List α) (f : Nat → β) (q : α × β) :
    q ∈ L.zip ((List.range L.length).map f) →
      ∃ i, ∃ hi : i < L.length, q = (L.get ⟨i, hi⟩, f i) := by
  induction L generalizing f with
  | nil => intro hq; cases hq
  | cons a L' ih =>
      intro hq
      rw [show (a :: L').length = L'.length + 1 from rfl, List.range_succ_eq_map,
        List.map_cons, List.map_map, List.zip_cons_cons] at hq
      rcases List.mem_cons.mp hq with heq | hq'
      · exact ⟨0, Nat.succ_pos _, heq⟩
      · obtain ⟨i, hi, hqi⟩ := ih (f ∘ Nat.succ) hq'
        exact ⟨i + 1, Nat.succ_lt_succ hi, hqi⟩

theorem axisIndexes_coordFn (s : Store) (name : String) (arr : XArr)
    (h : to_xarray s name = Except.ok arr) :
    ∃ m, ∀ q ∈ axisIndexes arr, q.2 = coordFn (validate s).1 m q.1 := by
  unfold to_xarray at h
  cases hdfs : to_multiindex_dataframes s with
  | error e =>
      rw [hdfs, except_bind_error] at h
      exact Except.noConfusion h
  | ok dfs =>
      have hbf : buildFrames (validate s).1 (validate s).1 = Except.ok dfs := by
        unfold to_multiindex_dataframes at hdfs
        by_cases hv : (validate s).2 = []
        · simpa [hv] using hdfs
        · simp [hv] at hdfs
      rw [hdfs, except_bind_ok] at h
      split at h
      · exact Except.noConfusion h
      · rename_i mif heq
        split at h
        · have harr := Except.ok.inj h
          obtain ⟨p, hpmem, hpm⟩ := lookupFrame_mem dfs name mif heq
          obtain ⟨axvals, hget, htup⟩ := frames_inv (validate s).1 (validate s).1 dfs hbf p hpmem
          rw [hpm] at hget htup
          have haxv := getAxVals_eq _ _ _ hget
          refine ⟨minLen axvals, ?_⟩
          intro q hq
          rw [← harr] at hq
          unfold axisIndexes at hq
          obtain ⟨i, hi, hqi⟩ := mem_zip_map_range mif.axnames
            (fun j => uniq (column mif.tuples j)) q hq
          have hiv : i < axvals.length := by
            rw [haxv, List.length_map]
            exact hi
          have hcol : column mif.tuples i = (axvals.get ⟨i, hiv⟩).take (minLen axvals) := by
            rw [htup]
            exact column_zipCols axvals i hiv
          have h1 : axvals[i]? = (mif.axnames[i]?).map
              (fun a => ((lookupF (validate s).1 a).map valuesOf).getD []) := by
            conv_lhs => rw [haxv]
            exact List.getElem?_map _ _ _
          rw [List.getElem?_eq_getElem hiv, List.getElem?_eq_getElem hi] at h1
          simp only [Option.map_some'] at h1
          have hv2 := Option.some.inj h1
          rw [hqi]
          show uniq (column mif.tuples i) =
            coordFn (validate s).1 (minLen axvals) (mif.axnames.get ⟨i, hi⟩)
          rw [hcol]
          unfold coordFn
          simp only [List.get_eq_getElem]
          rw [hv2]
        · exact Except.noConfusion h

theorem upsert_inv (F : String → List Int) (ret : List (String × (List Int × String)))
    (k : String) (v : List Int) (u : String)
    (hret : ∀ q ∈ ret, q.2.1 = F q.1) (hv : v = F k) :
    ∀ q ∈ upsert ret k (v, u), q.2.1 = F q.1 := by
  intro q hq
  unfold upsert at hq
  split at hq
  · rw [List.mem_map] at hq
    obtain ⟨p, hp, hpq⟩ := hq
    by_cases hpk : (p.1 == k) = true
    · rw [if_pos hpk] at hpq
      rw [← hpq]
      exact hv
    · rw [if_neg hpk] at hpq
      rw [← hpq]
      exact hret p hp
  · rcases List.mem_append.mp hq with h1 | h2
    · exact hret q h1
    · rw [List.mem_singleton] at h2
      rw [h2]
      exact hv

theorem buildRet_no_conflict (s' : Store) (F : String → List Int) :
    ∀ (pending : List (String × List Int)) (ret : List (String × (List Int × String))),
      (∀ q ∈ pending, q.2 = F q.1) → (∀ q ∈ ret, q.2.1 = F q.1) →
      isShapeConflict (buildRet s' pending ret) = false := by
  intro pending
  induction pending with
  | nil => intro ret _ _; rfl
  | cons hd rest ih =>
      intro ret hpend hret
      obtain ⟨idxn, vals⟩ := hd
      have hvals : vals = F idxn := hpend (idxn, vals) (List.mem_cons_self _ _)
      simp only [buildRet]
      have hconf : (match (ret.find? (fun p => p.1 == idxn)).map Prod.snd with
          | some (vs, _) => vals.length != vs.length
          | none => false) = false := by
        cases hf : ret.find? (fun p => p.1 == idxn) with
        | none => rfl
        | some p =>
            obtain ⟨p1, vs, u⟩ := p
            have hp1 : p1 = idxn := by
              have := List.find?_some hf
              rwa [beq_iff_eq] at this
            have hmem := List.mem_of_find?_eq_some hf
            have hlen : vs = F p1 := hret (p1, vs, u) hmem
            show (vals.length != vs.length) = false
            rw [hvals, hlen, hp1]
            exact bne_self_eq_false _
      rw [hconf]
      show isShapeConflict (if false = true then _ else _) = false
      rw [if_neg (by simp)]
      cases hlk : lookupF s' idxn with
      | none => rfl
      | some f =>
          exact ih (upsert ret idxn (vals, unitOf f))
            (fun q hq => hpend q (List.mem_cons_of_mem _ hq))
            (upsert_inv F ret idxn vals (unitOf f) hret hvals)

theorem getAxVals_no_conflict (s' : Store) (l : List String) :
    isShapeConflict (getAxVals s' l) = false := by
  induction l with
  | nil => rfl
  | cons a rest ih =>
      simp only [getAxVals]
      split
      · rfl
      · cases hr : getAxVals s' rest with
        | error e =>
            rw [except_bind_error]
            rw [hr] at ih
            exact ih
        | ok r =>
            rw [except_bind_ok]
            rfl

theorem buildFrames_no_conflict (s' : Store) (l : List (String × Field)) :
    isShapeConflict (buildFrames s' l) = false := by
  induction l with
  | nil => rfl
  | cons hd tl ih =>
      obtain ⟨n, f⟩ := hd
      simp only [buildFrames]
      split
      · exact ih
      · cases hav : getAxVals s' (axesOf f) with
        | error e =>
            rw [except_bind_error]
            have := getAxVals_no_conflict s' (axesOf f)
            rw [hav] at this
            exact this
        | ok axvals =>
            rw [except_bind_ok]
            split
            · rfl
            · cases hbf : buildFrames s' tl with
              | error e =>
                  rw [except_bind_error]
                  rw [hbf] at ih
                  exact ih
              | ok r =>
                  rw [except_bind_ok]
                  rfl

theorem to_multiindex_no_conflict (s : Store) :
    isShapeConflict (to_multiindex_dataframes s) = false := by
  unfold to_multiindex_dataframes
  by_cases hv : (validate s).2 = []
  · simp only [hv, if_pos]
    exact buildFrames_no_conflict _ _
  · simp only [hv, if_neg, if_false]
    rfl

theorem to_xarray_no_conflict (s : Store) (name : String) :
    isShapeConflict (to_xarray s name) = false := by
  unfold to_xarray
  cases hdfs : to_multiindex_dataframes s with
  | error e =>
      rw [except_bind_error]
      have := to_multiindex_no_conflict s
      rw [hdfs] at this
      exact this
  | ok dfs =>
      rw [except_bind_ok]
      split
      · rfl
      · split <;> rfl

theorem dependents_no_conflict (s : Store) : isShapeConflict (dependents s) = false := by
  unfold dependents
  by_cases hv : (validate s).2 = []
  · simp only [hv, if_pos]
    rfl
  · simp only [hv, if_neg, if_false]
    rfl

theorem gridLoop_no_conflict (s : Store) (mask : Bool) (names : List String) :
    isShapeConflict (gridLoop s mask names) = false := by
  induction names with
  | nil => rfl
  | cons n rest ih =>
      simp only [gridLoop]
      cases hx : to_xarray s n with
      | error e =>
          rw [except_bind_error]
          have := to_xarray_no_conflict s n
          rw [hx] at this
          exact this
      | ok arr =>
          rw [except_bind_ok]
          obtain ⟨m, hm⟩ := axisIndexes_coordFn s n arr hx
          cases hb : buildRet (validate s).1 (axisIndexes arr) [] with
          | error e =>
              rw [except_bind_error]
              have := buildRet_no_conflict (validate s).1 (coordFn (validate s).1 m)
                (axisIndexes arr) [] hm (fun q hq => absurd hq (List.not_mem_nil q))
              rw [hb] at this
              exact this
          | ok ret =>
              rw [except_bind_ok]
              cases hlk : lookupF (validate s).1 n with
              | none => rfl
              | some f => exact ih

/-- C2: the shape-conflict error is unreachable: for every store, every
requested field set and either masking mode, `get_grid` never fails with the
shape-conflict error, because `ret` — the dict the conflict check consults —
is re-initialized inside the per-field loop, and within a single field the
coordinates recorded for an axis name are a function of that name alone. -/
theorem get_grid_no_shape_conflict (s : Store) (arg : Option (List String)) (mask : Bool) :
    isShapeConflict (get_grid s arg mask) = false := by
  unfold get_grid
  cases arg with
  | none =>
      show isShapeConflict (dependents s >>= fun names => gridLoop s mask names) = false
      cases hd : dependents s with
      | error e =>
          rw [except_bind_error]
          have := dependents_no_conflict s
          rw [hd] at this
          exact this
      | ok l =>
          rw [except_bind_ok]
          exact gridLoop_no_conflict s mask l
  | some l =>
      show isShapeConflict (pure l >>= fun names => gridLoop s mask names) = false
      rw [show (pure l : Except Err (List String)) = Except.ok l from rfl, except_bind_ok]
      exact gridLoop_no_conflict s mask l

/-- A store in which the field `y` is both gridded as data (a grid of 2
cells over axis `x`) and used as the axis of `z` with a single realized
coordinate — the very situation the conflict check's message describes. -/
def conflictStore : Store :=
  [("x", ⟨some [], some "", some [1, 2]⟩),
   ("w", ⟨some [], some "", some [0, 1]⟩),
   ("y", ⟨some ["x"], some "", some [10, 10]⟩),
   ("z", ⟨some ["y", "w"], some "", some [5, 6]⟩)]

theorem get_grid_conflict_example :
    to_xarray conflictStore "y" =
      Except.ok ⟨["x"], [[1, 2]], [([1], 10), ([2], 10)]⟩ ∧
    to_xarray conflictStore "z" =
      Except.ok ⟨["y", "w"], [[10], [0, 1]], [([10, 0], 5), ([10, 1], 6)]⟩ ∧
    get_grid conflictStore none true = Except.ok () := ⟨rfl, rfl, rfl⟩

end Plottr
